import Mathlib

set_option maxHeartbeats 1000000

/-! Formal model of the am-segmentation repository: the tile codec
(slice/stitch/crop geometry and the persisted metadata record) and the
queue-driven fleet orchestration (upload, queue consumption, bounded-batch
task launch and the poll/timeout wait loop), translated from the Python
sources. -/

/-- A tile: pixel values addressed by row and column offsets inside the tile.
Pixel content and channel count are abstracted to a single value per position. -/
def Tile : Type := Nat → Nat → Nat

/-- A pixel array with explicit height and width; pixels addressed by row and
column. -/
structure NdImage where
  h : Nat
  w : Nat
  px : Nat → Nat → Nat

/-- Membership of pixel (r, c) in the tile-size block at grid position (i, j). -/
abbrev covers (ts i j r c : Nat) : Prop :=
  i * ts ≤ r ∧ r < i * ts + ts ∧ j * ts ≤ c ∧ c < j * ts + ts

/-- The numpy slice assignment image[i*ts:(i+1)*ts, j*ts:(j+1)*ts] = t of
stitch_tiles in src/src/am/segment/preprocess.py. -/
def blockWrite (img : NdImage) (ts i j : Nat) (t : Tile) : NdImage :=
  { h := img.h, w := img.w,
    px := fun r c =>
      if covers ts i j r c then t (r - i * ts) (c - j * ts) else img.px r c }

/-- Row-major traversal of the tile grid: the nested i, j loops of
stitch_tiles. -/
def gridPairs (rows cols : Nat) : List (Nat × Nat) :=
  (List.range rows).flatMap (fun i => (List.range cols).map (fun j => (i, j)))

/-- Sequential block assignments of stitch_tiles. A result of none models a
raised exception: an index reaching past the end of the tiles list
(IndexError), or a None entry assigned into the numpy array (TypeError). -/
def stitch_fold (tiles : List (Option Tile)) (ts cols : Nat) :
    NdImage → List (Nat × Nat) → Option NdImage
  | img, [] => some img
  | img, p :: rest =>
    match tiles[p.1 * cols + p.2]? with
    | some (some t) => stitch_fold tiles ts cols (blockWrite img ts p.1 p.2 t) rest
    | some none => none
    | none => none

/-- stitch_tiles from src/src/am/segment/preprocess.py. The initial image is
np.zeros((tile_size*tile_row_n, tile_size*tile_col_n)); the access tiles[0]
for the channel count raises on an empty list or a None first entry, modeled
by the leading match. -/
def stitch_tiles (tiles : List (Option Tile))
    (tile_size tile_row_n tile_col_n : Nat) : Option NdImage :=
  match tiles.head? with
  | none => none
  | some none => none
  | some (some _) =>
    stitch_fold tiles tile_size tile_col_n
      { h := tile_size * tile_row_n, w := tile_size * tile_col_n, px := fun _ _ => 0 }
      (gridPairs tile_row_n tile_col_n)

/-- Modelled from the spec: centerCrop (albumentations CenterCrop, external to
the sources) crops the padded image to the final size, centered; top and left
offsets are the halved dimension differences. -/
def center_crop (img : NdImage) (h w : Nat) : NdImage :=
  { h := h, w := w,
    px := fun r c => img.px (r + (img.h - h) / 2) (c + (img.w - w) / 2) }

/-- The subset of the meta.json record read by stitch_and_crop_tiles. -/
structure StitchMeta where
  rows : Nat
  cols : Nat
  image_h : Nat
  image_w : Nat

/-- The tiles array construction of stitch_and_crop_tiles: a list preallocated
to the number of tile files ([None] * len(tile_paths)), entries assigned at
the integer value of each file stem; none models the IndexError raised when a
stem reaches past the end of the preallocated list. The per-tile cv2 resize
to tile_size is abstracted away (it does not change which tile is stored). -/
def build_tiles_array : List (Nat × Tile) → List (Option Tile) → Option (List (Option Tile))
  | [], acc => some acc
  | f :: rest, acc =>
    if f.1 < acc.length then build_tiles_array rest (acc.set f.1 (some f.2))
    else none

/-- stitch_and_crop_tiles from src/src/am/segment/preprocess.py (the version
in src/am_segm/preprocess.py has the same structure). The Bool records
whether the tile-count mismatch warning was logged; the Option is none when
an exception is raised after the warning. -/
def stitch_and_crop_tiles (files : List (Nat × Tile)) (tile_size : Nat)
    (m : StitchMeta) : Bool × Option NdImage :=
  let warned := files.length != m.rows * m.cols
  match build_tiles_array files (List.replicate files.length none) with
  | none => (warned, none)
  | some tiles =>
    match stitch_tiles tiles tile_size m.rows m.cols with
    | none => (warned, none)
    | some img => (warned, some (center_crop img m.image_h m.image_w))

/-- Modelled from the spec: compute_tile_row_col_n lives in
am.segment.image_utils and am_segm.image_utils, which are not among the
provided sources; the spec fixes it as ceiling division on both axes
(gridFor: rows = ceil(h/tileSize), cols = ceil(w/tileSize)). -/
def compute_tile_row_col_n (h w ts : Nat) : Nat × Nat :=
  ((h + ts - 1) / ts, (w + ts - 1) / ts)

/-- One persisted meta.json record: each top-level key may be present or
absent; orig_image and image hold (h, w), tile holds (rows, cols, size). -/
structure MetaRecord where
  orig_image : Option (Nat × Nat)
  image : Option (Nat × Nat)
  tile : Option (Nat × Nat × Nat)
deriving DecidableEq

/-- Conformance to the documented meta.json schema: the keys orig_image,
image and tile are all present. -/
abbrev conformsMetaSchema (m : MetaRecord) : Prop :=
  m.orig_image.isSome = true ∧ m.image.isSome = true ∧ m.tile.isSome = true

/-- The metadata record persisted by slice_to_tiles in
src/src/am/segment/preprocess.py. The image shape is (h0, w0, 3); the cv2
downscale of an oversized image is abstracted by the resize argument giving
the downscaled height and width. -/
def slice_to_tiles_meta (h0 w0 ts : Nat) (resize : Nat × Nat → Nat × Nat) : MetaRecord :=
  let max_size := ts * 40
  let hw := if max_size < max (max h0 w0) 3 then resize (h0, w0) else (h0, w0)
  let rc := compute_tile_row_col_n hw.1 hw.2 ts
  { orig_image := some (h0, w0), image := some hw, tile := some (rc.1, rc.2, ts) }

/-- The metadata record persisted by slice_to_tiles in
src/am_segm/preprocess.py: it writes only the image and tile keys (tile_size
fixed at 512, max_size 512*15, images read as single-channel 2D arrays). -/
def slice_to_tiles_meta_am_segm (h0 w0 : Nat) (resize : Nat × Nat → Nat × Nat) : MetaRecord :=
  let tile_size := 512
  let max_size := tile_size * 15
  let hw := if max_size < max h0 w0 then resize (h0, w0) else (h0, w0)
  let rc := compute_tile_row_col_n hw.1 hw.2 tile_size
  { orig_image := none, image := some hw, tile := some (rc.1, rc.2, tile_size) }

/-- Events observable from one worker thread of upload_images_to_s3 in
src/am/ecs/init.py. -/
inductive S3Event
  | uploadFile (bucket loc s3 : String)
  | sendMessage (body : String)
deriving DecidableEq

/-- The per-pair upload closure of upload_images_to_s3: upload the file, then,
when a queue url is given, send the object key as the message body. -/
def upload_one (bucket : String) (queue_url : Option String)
    (p : String × String) : List S3Event :=
  [S3Event.uploadFile bucket p.1 p.2] ++
    (match queue_url with
     | some _ => [S3Event.sendMessage p.2]
     | none => [])

/-- upload_images_to_s3: the thread pool maps the upload closure over
zip(local_paths, s3_paths); one event sequence per pair, events inside a pair
strictly ordered. -/
def upload_images_to_s3 (bucket : String) (queue_url : Option String)
    (local_paths s3_paths : List String) : List (List S3Event) :=
  (local_paths.zip s3_paths).map (upload_one bucket queue_url)

/-- The receive loop of consume_messages: n rounds, each one
sqs.receive_message call with MaxNumberOfMessages=1, modeled against a queue
of (body, receipt handle) pairs delivered in order. Returns the collected
bodies, the collected receipt handles, and the number of empty rounds. -/
def consume_go : List (String × String) → Nat → List String × List String × Nat
  | _, 0 => ([], [], 0)
  | [], n + 1 =>
    let r := consume_go [] n
    (r.1, r.2.1, r.2.2 + 1)
  | m :: q, n + 1 =>
    let r := consume_go q n
    (m.1 :: r.1, m.2 :: r.2.1, r.2.2)

/-- consume_messages from src/am/ecs/init.py. -/
def consume_messages (queue : List (String × String)) (n : Nat) :
    List String × List String × Nat :=
  consume_go queue n

/-- The caller-supplied task_config dict of run_wait_for_inference_task: the
count entry (absent after it is popped) and the remaining template entries. -/
structure TaskConfig where
  count : Option Nat
  template : List (String × String)
deriving DecidableEq

/-- Observable trace of the launch loop: the count of each ecs.run_task call,
the accumulated task arns, and the seconds slept between batches. -/
structure LaunchTrace where
  batches : List Nat
  arns : List String
  sleepSec : Nat
deriving DecidableEq

/-- The launch loop of run_wait_for_inference_task: while task_n > 0, launch
min(task_n, 10) tasks, accumulate the returned arns, and sleep 5 seconds when
tasks remain. The scheduler is abstract: sched call_index count gives the
arns returned by that ecs.run_task call. Fuel bounds the recursion; fuel = n
suffices since every batch launches at least one task. -/
def launch_loop (sched : Nat → Nat → List String) : Nat → Nat → Nat → LaunchTrace
  | 0, _, _ => { batches := [], arns := [], sleepSec := 0 }
  | fuel + 1, n, idx =>
    if n = 0 then { batches := [], arns := [], sleepSec := 0 }
    else
      let b := min n 10
      let rest := launch_loop sched fuel (n - b) (idx + 1)
      { batches := b :: rest.batches,
        arns := sched idx b ++ rest.arns,
        sleepSec := (if 0 < n - b then 5 else 0) + rest.sleepSec }

/-- The arns produced by one scheduler call per batch, in call order: the
reference description of what the launch loop accumulates. -/
def scheduled_arns (sched : Nat → Nat → List String) : List Nat → Nat → List String
  | [], _ => []
  | b :: bs, idx => sched idx b ++ scheduled_arns sched bs (idx + 1)

/-- The wait loop of run_wait_for_inference_task: while time() < finish,
sleep the interval, poll the task statuses, and stop when the callback is
true. The callback is nullary in the source (a closure over external state);
it is modeled as a function of the poll round, starting at round 1. Ok
carries (polls, elapsed seconds) on a normal return, error carries them when
the deadline elapses and the Timeout exception is raised. The fuel models
nothing in the source; the wrapper supplies enough for any positive
interval. -/
def wait_go (stop : Nat → Bool) (interval timeout : Nat) :
    Nat → Nat → Nat → Option (Except (Nat × Nat) (Nat × Nat))
  | 0, _, _ => none
  | fuel + 1, elapsed, polls =>
    if elapsed < timeout then
      if stop (polls + 1) then some (Except.ok (polls + 1, elapsed + interval))
      else wait_go stop interval timeout fuel (elapsed + interval) (polls + 1)
    else some (Except.error (polls, elapsed))

/-- The wait phase of run_wait_for_inference_task, entered with zero elapsed
time and zero polls performed. -/
def wait_until (stop : Nat → Bool) (interval timeout : Nat) :
    Option (Except (Nat × Nat) (Nat × Nat)) :=
  wait_go stop interval timeout (timeout + 1) 0 0

/-- How run_wait_for_inference_task terminates. -/
inductive RunOutcome
  | keyError
  | assertError
  | finished (polls elapsed : Nat)
  | timedOut (polls elapsed : Nat)
deriving DecidableEq

/-- Observable behavior of one run_wait_for_inference_task call. -/
structure RunObs where
  schedCalls : List Nat
  arns : List String
  launchSleep : Nat
  outcome : RunOutcome
  finalConfig : TaskConfig
deriving DecidableEq

/-- run_wait_for_inference_task from src/am/ecs/init.py: pop the count from
the config (a mutation of the caller-supplied dict that happens before the
assert), assert 0 < count <= 20, run the launch loop, then the wait loop.
none only models exhausted wait fuel, impossible for a positive interval. -/
def run_wait_for_inference_task (sched : Nat → Nat → List String)
    (stop : Nat → Bool) (cfg : TaskConfig) (interval timeout : Nat) :
    Option RunObs :=
  match cfg.count with
  | none => some { schedCalls := [], arns := [], launchSleep := 0,
                   outcome := RunOutcome.keyError, finalConfig := cfg }
  | some n =>
    let popped : TaskConfig := { count := none, template := cfg.template }
    if 0 < n ∧ n ≤ 20 then
      let lt := launch_loop sched n n 0
      match wait_until stop interval timeout with
      | none => none
      | some (Except.ok pe) =>
        some { schedCalls := lt.batches, arns := lt.arns, launchSleep := lt.sleepSec,
               outcome := RunOutcome.finished pe.1 pe.2, finalConfig := popped }
      | some (Except.error pe) =>
        some { schedCalls := lt.batches, arns := lt.arns, launchSleep := lt.sleepSec,
               outcome := RunOutcome.timedOut pe.1 pe.2, finalConfig := popped }
    else
      some { schedCalls := [], arns := [], launchSleep := 0,
             outcome := RunOutcome.assertError, finalConfig := popped }

/-! Helper lemmas about the queue consumption loop. -/

theorem consume_go_spec (n : Nat) : ∀ q : List (String × String),
    (consume_go q n).1 = (q.take n).map Prod.fst ∧
    (consume_go q n).2.1 = (q.take n).map Prod.snd ∧
    (consume_go q n).2.2 = n - min n q.length := by
  induction n with
  | zero =>
    intro q
    simp [consume_go]
  | succ n ih =>
    intro q
    cases q with
    | nil =>
      obtain ⟨h1, h2, h3⟩ := ih []
      simp [consume_go, h1, h2, h3]
    | cons m q =>
      obtain ⟨h1, h2, h3⟩ := ih q
      simp [consume_go, h1, h2, h3]
      omega

/-- C4: receiving up to n messages performs n sequential receive rounds (one
message fetched per non-empty round), returning one entry per message
received: the number of messages returned is min n (queue length), messages
plus empty rounds account for all n rounds, and against a queue holding 3
messages a call with n = 8 returns exactly 3 messages with 5 empty rounds. -/
theorem consume_messages_rounds (q : List (String × String)) (n : Nat) :
    (consume_messages q n).1.length = min n q.length ∧
    (consume_messages q n).1.length + (consume_messages q n).2.2 = n ∧
    (q.length = 3 → n = 8 →
      (consume_messages q n).1.length = 3 ∧ (consume_messages q n).2.2 = 5) := by
  obtain ⟨h1, h2, h3⟩ := consume_go_spec n q
  have hlen : (consume_messages q n).1.length = min n q.length := by
    simp [consume_messages, h1]
  have h3' : (consume_messages q n).2.2 = n - min n q.length := h3
  refine ⟨hlen, ?_, ?_⟩
  · rw [hlen, h3']
    omega
  · intro hq hn
    constructor
    · rw [hlen, hq, hn]
      decide
    · rw [h3', hq, hn]
      decide

/-- Witness for consume_messages_rounds at a queue of three concrete messages
and n = 8. -/
theorem consume_messages_rounds_w :
    (consume_messages [("a", "x"), ("b", "y"), ("c", "z")] 8).1.length = 3 ∧
    (consume_messages [("a", "x"), ("b", "y"), ("c", "z")] 8).2.2 = 5 :=
  (consume_messages_rounds [("a", "x"), ("b", "y"), ("c", "z")] 8).2.2 rfl rfl

/-- C10: the message-consumption operation returns bodies and receipt handles
of equal length, and for every index k the k-th body and the k-th handle come
from the same delivered queue message, so acknowledging by handle index
acknowledges the message that was processed. -/
theorem consume_messages_body_handle_aligned (q : List (String × String)) (n : Nat) :
    (consume_messages q n).1.length = (consume_messages q n).2.1.length ∧
    ∀ k, k < (consume_messages q n).1.length →
      ∃ p : String × String, q[k]? = some p ∧
        (consume_messages q n).1[k]? = some p.1 ∧
        (consume_messages q n).2.1[k]? = some p.2 := by
  obtain ⟨h1, h2, h3⟩ := consume_go_spec n q
  constructor
  · simp [consume_messages, h1, h2]
  · intro k hk
    rw [consume_messages] at *
    rw [h1] at hk
    simp only [List.length_map, List.length_take] at hk
    have hkq : k < q.length := lt_of_lt_of_le hk (min_le_right _ _)
    have hkn : k < n := lt_of_lt_of_le hk (min_le_left _ _)
    refine ⟨q[k], List.getElem?_eq_getElem hkq, ?_, ?_⟩
    · rw [h1, List.getElem?_map, List.getElem?_take, if_pos hkn,
        List.getElem?_eq_getElem hkq]
      rfl
    · rw [h2, List.getElem?_map, List.getElem?_take, if_pos hkn,
        List.getElem?_eq_getElem hkq]
      rfl

/-- Witness for consume_messages_body_handle_aligned at a concrete queue: the
first returned body and handle both come from the first queued message. -/
theorem consume_messages_body_handle_aligned_w :
    ∃ p : String × String, ([("a", "x"), ("b", "y")] : List (String × String))[0]? = some p ∧
      (consume_messages [("a", "x"), ("b", "y")] 3).1[0]? = some p.1 ∧
      (consume_messages [("a", "x"), ("b", "y")] 3).2.1[0]? = some p.2 :=
  (consume_messages_body_handle_aligned [("a", "x"), ("b", "y")] 3).2 0 (by decide)

/-- C9: with a queue configured, the upload operation produces one event
sequence per uploaded (local path, object key) pair, and that sequence is
exactly the object upload followed by one queue message whose body is the
plain object-store key of the tile — so each message is sent only after the
corresponding upload call completed. -/
theorem upload_enqueues_one_message_per_tile (bucket qurl : String)
    (local_paths s3_paths : List String) :
    (upload_images_to_s3 bucket (some qurl) local_paths s3_paths).length
      = (local_paths.zip s3_paths).length ∧
    ∀ k, k < (local_paths.zip s3_paths).length →
      ∃ p : String × String, (local_paths.zip s3_paths)[k]? = some p ∧
        (upload_images_to_s3 bucket (some qurl) local_paths s3_paths)[k]? =
          some [S3Event.uploadFile bucket p.1 p.2, S3Event.sendMessage p.2] := by
  constructor
  · simp [upload_images_to_s3]
  · intro k hk
    refine ⟨(local_paths.zip s3_paths)[k], List.getElem?_eq_getElem hk, ?_⟩
    rw [upload_images_to_s3, List.getElem?_map, List.getElem?_eq_getElem hk]
    rfl

/-- Witness for upload_enqueues_one_message_per_tile at one concrete pair. -/
theorem upload_enqueues_one_message_per_tile_w :
    ∃ p : String × String, ((["l1"] : List String).zip ["k1"])[0]? = some p ∧
      (upload_images_to_s3 ("b") (some ("q")) ["l1"] ["k1"])[0]? =
        some [S3Event.uploadFile ("b") p.1 p.2, S3Event.sendMessage p.2] :=
  (upload_enqueues_one_message_per_tile ("b") ("q") ["l1"] ["k1"]).2 0 (by decide)

/-- C2 (code bug): on a tile directory holding 3 tile files with stems
0000, 0001, 0002 against metadata recording a 2 by 2 grid, the lenient
stitch_and_crop_tiles logs the mismatch warning (first component true) but
then raises an IndexError inside stitch_tiles (accessing tiles[3] in a list
of 3) instead of producing a stitched image with grid position (1, 1) filled
with zeros: the result is none, no image. -/
theorem stitch_and_crop_missing_tiles_bug :
    stitch_and_crop_tiles [(0, fun _ _ => 5), (1, fun _ _ => 5), (2, fun _ _ => 5)] 4
      { rows := 2, cols := 2, image_h := 7, image_w := 7 } = (true, none) := rfl

/-- C7 counterexample: the metadata record persisted by the am_segm producer
for a 600 by 800 image does not conform to the documented meta.json schema,
because the orig_image key is absent. -/
theorem am_segm_meta_missing_orig_cex :
    ¬ conformsMetaSchema (slice_to_tiles_meta_am_segm 600 800 (fun p => p)) := by
  decide

/-- C7 (amended): the metadata record persisted by the am.segment producer
contains all three keys orig_image, image and tile (with integer height,
width, rows, cols and size fields); the am_segm producer's record omits the
orig_image key, containing only image and tile. -/
theorem producers_meta_schema (h0 w0 ts : Nat) (resize : Nat × Nat → Nat × Nat) :
    conformsMetaSchema (slice_to_tiles_meta h0 w0 ts resize) ∧
    (slice_to_tiles_meta_am_segm h0 w0 resize).orig_image = none ∧
    (slice_to_tiles_meta_am_segm h0 w0 resize).image.isSome = true ∧
    (slice_to_tiles_meta_am_segm h0 w0 resize).tile.isSome = true :=
  ⟨⟨rfl, rfl, rfl⟩, rfl, rfl, rfl⟩

/-! Helper lemmas about the launch loop and the wait loop. -/

theorem launch_loop_zero (sched : Nat → Nat → List String) (fuel idx : Nat) :
    launch_loop sched fuel 0 idx = { batches := [], arns := [], sleepSec := 0 } := by
  cases fuel with
  | zero => rfl
  | succ fuel => rfl

theorem launch_loop_spec (sched : Nat → Nat → List String) :
    ∀ fuel n idx, n ≤ fuel →
      (launch_loop sched fuel n idx).batches.sum = n ∧
      (∀ b ∈ (launch_loop sched fuel n idx).batches, 1 ≤ b ∧ b ≤ 10) ∧
      (launch_loop sched fuel n idx).sleepSec
        = 5 * ((launch_loop sched fuel n idx).batches.length - 1) ∧
      (launch_loop sched fuel n idx).arns
        = scheduled_arns sched (launch_loop sched fuel n idx).batches idx ∧
      (0 < n → (launch_loop sched fuel n idx).batches ≠ []) := by
  intro fuel
  induction fuel with
  | zero =>
    intro n idx hn
    interval_cases n
    simp [launch_loop, scheduled_arns]
  | succ fuel ih =>
    intro n idx hn
    by_cases hn0 : n = 0
    · subst hn0
      simp [launch_loop_zero, scheduled_arns]
    · have hb1 : 1 ≤ min n 10 := le_min (Nat.one_le_iff_ne_zero.mpr hn0) (by omega)
      have hbn : min n 10 ≤ n := min_le_left _ _
      have hrest : n - min n 10 ≤ fuel := by omega
      obtain ⟨ihsum, ihb, ihsleep, iharns, ihne⟩ := ih (n - min n 10) (idx + 1) hrest
      have hunfold : launch_loop sched (fuel + 1) n idx =
          { batches := min n 10 :: (launch_loop sched fuel (n - min n 10) (idx + 1)).batches,
            arns := sched idx (min n 10) ++ (launch_loop sched fuel (n - min n 10) (idx + 1)).arns,
            sleepSec := (if 0 < n - min n 10 then 5 else 0)
              + (launch_loop sched fuel (n - min n 10) (idx + 1)).sleepSec } := by
        rw [launch_loop, if_neg hn0]
      rw [hunfold]
      refine ⟨?_, ?_, ?_, ?_, ?_⟩
      · simp only [List.sum_cons, ihsum]
        omega
      · intro b hb
        rcases List.mem_cons.mp hb with hb | hb
        · subst hb
          exact ⟨hb1, min_le_right _ _⟩
        · exact ihb b hb
      · by_cases hleft : 0 < n - min n 10
        · have hne' := ihne hleft
          have hlen : 1 ≤ (launch_loop sched fuel (n - min n 10) (idx + 1)).batches.length :=
            List.length_pos.mpr hne'
          simp only [if_pos hleft, ihsleep, List.length_cons]
          omega
        · have hz : n - min n 10 = 0 := by omega
          rw [hz, launch_loop_zero]
          simp [if_neg hleft]
      · simp only [scheduled_arns, iharns]
      · intro _
        simp

theorem wait_go_total (stop : Nat → Bool) (interval timeout : Nat) (hI : 0 < interval) :
    ∀ fuel elapsed polls, timeout - elapsed < fuel →
      (wait_go stop interval timeout fuel elapsed polls).isSome = true := by
  intro fuel
  induction fuel with
  | zero =>
    intro elapsed polls h
    omega
  | succ fuel ih =>
    intro elapsed polls h
    rw [wait_go]
    by_cases he : elapsed < timeout
    · rw [if_pos he]
      by_cases hs : stop (polls + 1) = true
      · rw [if_pos hs]
        rfl
      · rw [if_neg hs]
        exact ih (elapsed + interval) (polls + 1) (by omega)
    · rw [if_neg he]
      rfl

theorem wait_until_total (stop : Nat → Bool) (interval timeout : Nat) (hI : 0 < interval) :
    (wait_until stop interval timeout).isSome = true :=
  wait_go_total stop interval timeout hI (timeout + 1) 0 0 (by omega)

theorem wait_go_ok (stop : Nat → Bool) (interval timeout : Nat) :
    ∀ fuel elapsed polls p e,
      wait_go stop interval timeout fuel elapsed polls = some (Except.ok (p, e)) →
      stop p = true ∧ polls < p ∧ (∀ j, polls < j → j < p → stop j = false) ∧
      e = elapsed + (p - polls) * interval := by
  intro fuel
  induction fuel with
  | zero =>
    intro elapsed polls p e h
    exact Option.noConfusion h
  | succ fuel ih =>
    intro elapsed polls p e h
    rw [wait_go] at h
    by_cases he : elapsed < timeout
    · rw [if_pos he] at h
      by_cases hs : stop (polls + 1) = true
      · rw [if_pos hs] at h
        have hpe : (polls + 1, elapsed + interval) = (p, e) :=
          Except.ok.inj (Option.some.inj h)
        have hp : polls + 1 = p := congrArg Prod.fst hpe
        have hel : elapsed + interval = e := congrArg Prod.snd hpe
        subst hp
        refine ⟨hs, by omega, ?_, ?_⟩
        · intro j h1 h2
          omega
        · have : polls + 1 - polls = 1 := by omega
          rw [this]
          omega
      · rw [if_neg hs] at h
        obtain ⟨hstop, hlt, hmid, hel⟩ := ih (elapsed + interval) (polls + 1) p e h
        refine ⟨hstop, by omega, ?_, ?_⟩
        · intro j h1 h2
          by_cases hj : j = polls + 1
          · subst hj
            exact Bool.not_eq_true _ ▸ (by simpa using hs)
          · exact hmid j (by omega) h2
        · have hsplit : p - polls = (p - (polls + 1)) + 1 := by omega
          rw [hsplit, Nat.add_mul, one_mul] at *
          omega
    · rw [if_neg he] at h
      exact Except.noConfusion (Option.some.inj h)

/-- C5: the wait loop polls the task statuses once per poll interval (the
elapsed time on a normal return is the poll count times the interval, one
sleep before each poll), returns normally the first time the stop callback
is true, and when the callback is true on the first poll it returns after
that single sleep and poll with no further sleeping. The callback takes no
arguments in the source (a closure over external state); it is modeled as a
function of the poll round. -/
theorem wait_until_first_true (stop : Nat → Bool) (interval timeout : Nat) :
    (∀ p e, wait_until stop interval timeout = some (Except.ok (p, e)) →
      stop p = true ∧ (∀ j, 0 < j → j < p → stop j = false) ∧ e = p * interval) ∧
    (0 < timeout → stop 1 = true →
      wait_until stop interval timeout = some (Except.ok (1, interval))) := by
  constructor
  · intro p e h
    obtain ⟨hstop, hlt, hmid, hel⟩ := wait_go_ok stop interval timeout (timeout + 1) 0 0 p e h
    exact ⟨hstop, hmid, by simpa using hel⟩
  · intro ht hs
    rw [wait_until, wait_go, if_pos ht]
    norm_num [hs]

/-- Witness for wait_until_first_true: a callback true on the first poll
returns after exactly one 10 second sleep and one poll. -/
theorem wait_until_first_true_w :
    wait_until (fun _ => true) 10 300 = some (Except.ok (1, 10)) :=
  (wait_until_first_true (fun _ => true) 10 300).2 (by decide) rfl

/-- C6: if the stop callback is never true, the wait loop raises the Timeout
exception once the deadline elapses; with timeout 30 and poll interval 10 it
does so after exactly 3 polls, 30 seconds of sleeping. -/
theorem wait_until_timeout_polls (stop : Nat → Bool) (interval timeout : Nat)
    (hI : 0 < interval) (hstop : ∀ k, stop k = false) :
    (∃ p e, wait_until stop interval timeout = some (Except.error (p, e))) ∧
    (interval = 10 → timeout = 30 →
      wait_until stop interval timeout = some (Except.error (3, 30))) := by
  constructor
  · obtain ⟨r, hr⟩ := Option.isSome_iff_exists.mp (wait_until_total stop interval timeout hI)
    cases r with
    | ok pe =>
      obtain ⟨p, e⟩ := pe
      obtain ⟨hstop', _, _, _⟩ := wait_go_ok stop interval timeout (timeout + 1) 0 0 p e hr
      rw [hstop p] at hstop'
      exact Bool.noConfusion hstop'
    | error pe =>
      obtain ⟨p, e⟩ := pe
      exact ⟨p, e, hr⟩
  · intro hi ht
    subst hi
    subst ht
    have hfun : stop = fun _ => false := funext hstop
    rw [hfun]
    rfl

/-- Witness for wait_until_timeout_polls: a never-true callback with interval
10 and timeout 30. -/
theorem wait_until_timeout_polls_w :
    (∃ p e, wait_until (fun _ => false) 10 30 = some (Except.error (p, e))) ∧
    ((10 : Nat) = 10 → (30 : Nat) = 30 →
      wait_until (fun _ => false) 10 30 = some (Except.error (3, 30))) :=
  wait_until_timeout_polls (fun _ => false) 10 30 (by decide) (fun _ => rfl)

/-- C3: for every requested task count in [1, 20] the launcher accepts the
count and launches batches whose sizes sum to the count, each between 1 and
10 tasks per scheduler call, sleeping 5 seconds between consecutive batches
and none after the last (total sleep 5 * (batches - 1)), accumulating the
arns returned by the scheduler calls in order; a count outside the range is
rejected by the assert with no scheduler call; a request for 13 tasks yields
exactly the batches [10, 3] with one 5 second pause. -/
theorem run_task_launch_batches (sched : Nat → Nat → List String) (stop : Nat → Bool)
    (interval timeout : Nat) (hI : 0 < interval) :
    (∀ (cfg : TaskConfig) (n : Nat), cfg.count = some n → 1 ≤ n → n ≤ 20 →
      ∃ obs : RunObs,
        run_wait_for_inference_task sched stop cfg interval timeout = some obs ∧
        obs.schedCalls.sum = n ∧
        (∀ b ∈ obs.schedCalls, 1 ≤ b ∧ b ≤ 10) ∧
        obs.launchSleep = 5 * (obs.schedCalls.length - 1) ∧
        obs.arns = scheduled_arns sched obs.schedCalls 0 ∧
        obs.outcome ≠ RunOutcome.assertError ∧ obs.outcome ≠ RunOutcome.keyError ∧
        (n = 13 → obs.schedCalls = [10, 3] ∧ obs.launchSleep = 5)) ∧
    (∀ (cfg : TaskConfig) (n : Nat), cfg.count = some n → ¬ (1 ≤ n ∧ n ≤ 20) →
      ∃ obs : RunObs,
        run_wait_for_inference_task sched stop cfg interval timeout = some obs ∧
        obs.outcome = RunOutcome.assertError ∧ obs.schedCalls = []) := by
  constructor
  · intro cfg n hc h1 h2
    obtain ⟨c, tpl⟩ := cfg
    change c = some n at hc
    subst hc
    obtain ⟨hsum, hbounds, hsleep, harns, hne⟩ := launch_loop_spec sched n n 0 (le_refl n)
    obtain ⟨r, hr⟩ := Option.isSome_iff_exists.mp (wait_until_total stop interval timeout hI)
    simp only [run_wait_for_inference_task]
    rw [if_pos (⟨h1, h2⟩ : 0 < n ∧ n ≤ 20), hr]
    cases r with
    | ok pe =>
      refine ⟨_, rfl, hsum, hbounds, hsleep, harns, by simp, by simp, ?_⟩
      intro h13
      subst h13
      exact ⟨rfl, rfl⟩
    | error pe =>
      refine ⟨_, rfl, hsum, hbounds, hsleep, harns, by simp, by simp, ?_⟩
      intro h13
      subst h13
      exact ⟨rfl, rfl⟩
  · intro cfg n hc hn
    obtain ⟨c, tpl⟩ := cfg
    change c = some n at hc
    subst hc
    simp only [run_wait_for_inference_task]
    rw [if_neg (show ¬ (0 < n ∧ n ≤ 20) from hn)]
    exact ⟨_, rfl, rfl, rfl⟩

/-- Witness for run_task_launch_batches: a request for 13 tasks against a
concrete scheduler and a callback true on the first poll. -/
theorem run_task_launch_batches_w :
    ∃ obs : RunObs,
      run_wait_for_inference_task (fun _ _ => []) (fun _ => true)
          { count := some 13, template := [] } 10 300 = some obs ∧
      obs.schedCalls.sum = 13 ∧
      (∀ b ∈ obs.schedCalls, 1 ≤ b ∧ b ≤ 10) ∧
      obs.launchSleep = 5 * (obs.schedCalls.length - 1) ∧
      obs.arns = scheduled_arns (fun _ _ => []) obs.schedCalls 0 ∧
      obs.outcome ≠ RunOutcome.assertError ∧ obs.outcome ≠ RunOutcome.keyError ∧
      (13 = 13 → obs.schedCalls = [10, 3] ∧ obs.launchSleep = 5) :=
  (run_task_launch_batches (fun _ _ => []) (fun _ => true) 10 300 (by decide)).1
    { count := some 13, template := [] } 13 rfl (by decide) (by decide)

/-- C8 counterexample: requesting 25 tasks (out of range) leaves the
caller-supplied task configuration changed: its count entry has been popped
before the assert fires, so the final configuration differs from the one
supplied. -/
theorem run_task_config_mutation_cex :
    Option.map RunObs.finalConfig
        (run_wait_for_inference_task (fun _ _ => []) (fun _ => true)
          { count := some 25, template := [] } 10 30)
      = some { count := none, template := [] } ∧
    ({ count := none, template := [] } : TaskConfig)
      ≠ { count := some 25, template := [] } :=
  ⟨rfl, by decide⟩

/-- C8 (amended): an out-of-range task count makes the launcher fail its
assertion before any scheduler call (no batches launched, no arns, no
sleeping), but only after the count entry has been removed from the
caller-supplied task configuration, which is therefore not left unchanged. -/
theorem run_task_out_of_range_amended (sched : Nat → Nat → List String)
    (stop : Nat → Bool) (cfg : TaskConfig) (interval timeout n : Nat)
    (hc : cfg.count = some n) (hn : ¬ (0 < n ∧ n ≤ 20)) :
    run_wait_for_inference_task sched stop cfg interval timeout =
      some { schedCalls := [], arns := [], launchSleep := 0,
             outcome := RunOutcome.assertError,
             finalConfig := { count := none, template := cfg.template } } := by
  obtain ⟨c, tpl⟩ := cfg
  change c = some n at hc
  subst hc
  simp only [run_wait_for_inference_task]
  rw [if_neg hn]

/-- Witness for run_task_out_of_range_amended at a zero task count. -/
theorem run_task_out_of_range_amended_w :
    run_wait_for_inference_task (fun _ _ => []) (fun _ => false)
        { count := some 0, template := [] } 10 30 =
      some { schedCalls := [], arns := [], launchSleep := 0,
             outcome := RunOutcome.assertError,
             finalConfig := { count := none, template := [] } } :=
  run_task_out_of_range_amended (fun _ _ => []) (fun _ => false)
    { count := some 0, template := [] } 10 30 0 rfl (by decide)

/-! Helper lemmas about the stitching geometry. -/

theorem covers_self (ts i j r c : Nat) (hr : r < ts) (hc : c < ts) :
    covers ts i j (i * ts + r) (j * ts + c) :=
  ⟨Nat.le_add_right _ _, by omega, Nat.le_add_right _ _, by omega⟩

theorem covers_unique (ts i j i' j' r c : Nat) (hr : r < ts) (hc : c < ts)
    (h : covers ts i' j' (i * ts + r) (j * ts + c)) : i' = i ∧ j' = j := by
  obtain ⟨h1, h2, h3, h4⟩ := h
  constructor
  · rcases Nat.lt_trichotomy i' i with hlt | heq | hgt
    · exfalso
      have hmul : (i' + 1) * ts ≤ i * ts := Nat.mul_le_mul_right ts hlt
      rw [Nat.add_mul, one_mul] at hmul
      omega
    · exact heq
    · exfalso
      have hmul : (i + 1) * ts ≤ i' * ts := Nat.mul_le_mul_right ts hgt
      rw [Nat.add_mul, one_mul] at hmul
      omega
  · rcases Nat.lt_trichotomy j' j with hlt | heq | hgt
    · exfalso
      have hmul : (j' + 1) * ts ≤ j * ts := Nat.mul_le_mul_right ts hlt
      rw [Nat.add_mul, one_mul] at hmul
      omega
    · exact heq
    · exfalso
      have hmul : (j + 1) * ts ≤ j' * ts := Nat.mul_le_mul_right ts hgt
      rw [Nat.add_mul, one_mul] at hmul
      omega

theorem mem_gridPairs (rows cols i j : Nat) (hi : i < rows) (hj : j < cols) :
    (i, j) ∈ gridPairs rows cols := by
  simp only [gridPairs, List.mem_flatMap, List.mem_map, List.mem_range]
  exact ⟨i, hi, j, hj, rfl⟩

theorem gridPairs_mem (rows cols : Nat) (p : Nat × Nat) (hp : p ∈ gridPairs rows cols) :
    p.1 < rows ∧ p.2 < cols := by
  simp only [gridPairs, List.mem_flatMap, List.mem_map, List.mem_range] at hp
  obtain ⟨a, ha, b, hb, hab⟩ := hp
  subst hab
  exact ⟨ha, hb⟩

theorem grid_index_lt (rows cols i j : Nat) (hi : i < rows) (hj : j < cols) :
    i * cols + j < rows * cols :=
  calc i * cols + j < i * cols + cols := by omega
    _ = (i + 1) * cols := by ring
    _ ≤ rows * cols := Nat.mul_le_mul_right cols hi

theorem stitch_fold_dims (tiles : List (Option Tile)) (ts cols : Nat) :
    ∀ (L : List (Nat × Nat)) (img out : NdImage),
      stitch_fold tiles ts cols img L = some out → out.h = img.h ∧ out.w = img.w := by
  intro L
  induction L with
  | nil =>
    intro img out h
    cases Option.some.inj h
    exact ⟨rfl, rfl⟩
  | cons p rest ih =>
    intro img out h
    simp only [stitch_fold] at h
    cases htile : tiles[p.1 * cols + p.2]? with
    | none =>
      rw [htile] at h
      exact Option.noConfusion h
    | some o =>
      cases o with
      | none =>
        rw [htile] at h
        exact Option.noConfusion h
      | some t =>
        rw [htile] at h
        exact ih (blockWrite img ts p.1 p.2 t) out h

theorem stitch_fold_total (tiles : List (Option Tile)) (ts cols : Nat) :
    ∀ (L : List (Nat × Nat)) (img : NdImage),
      (∀ p ∈ L, ∃ t, tiles[p.1 * cols + p.2]? = some (some t)) →
      ∃ out, stitch_fold tiles ts cols img L = some out := by
  intro L
  induction L with
  | nil =>
    intro img _
    exact ⟨img, rfl⟩
  | cons p rest ih =>
    intro img hall
    obtain ⟨t, ht⟩ := hall p (List.mem_cons_self p rest)
    obtain ⟨out, hout⟩ :=
      ih (blockWrite img ts p.1 p.2 t) (fun q hq => hall q (List.mem_cons_of_mem p hq))
    refine ⟨out, ?_⟩
    simp only [stitch_fold, ht]
    exact hout

theorem stitch_fold_untouched (tiles : List (Option Tile)) (ts cols r c : Nat) :
    ∀ (L : List (Nat × Nat)) (img out : NdImage),
      stitch_fold tiles ts cols img L = some out →
      (∀ p ∈ L, ¬ covers ts p.1 p.2 r c) →
      out.px r c = img.px r c := by
  intro L
  induction L with
  | nil =>
    intro img out h _
    cases Option.some.inj h
    rfl
  | cons p rest ih =>
    intro img out h hnc
    simp only [stitch_fold] at h
    cases htile : tiles[p.1 * cols + p.2]? with
    | none =>
      rw [htile] at h
      exact Option.noConfusion h
    | some o =>
      cases o with
      | none =>
        rw [htile] at h
        exact Option.noConfusion h
      | some t =>
        rw [htile] at h
        have hrest := ih (blockWrite img ts p.1 p.2 t) out h
          (fun q hq => hnc q (List.mem_cons_of_mem p hq))
        rw [hrest]
        simp only [blockWrite]
        rw [if_neg (hnc p (List.mem_cons_self p rest))]

theorem stitch_fold_place (tiles : List (Option Tile)) (ts cols r c i j : Nat) (t : Tile) :
    ∀ (L : List (Nat × Nat)) (img out : NdImage),
      stitch_fold tiles ts cols img L = some out →
      (i, j) ∈ L →
      covers ts i j r c →
      (∀ p ∈ L, covers ts p.1 p.2 r c → p = (i, j)) →
      tiles[i * cols + j]? = some (some t) →
      out.px r c = t (r - i * ts) (c - j * ts) := by
  intro L
  induction L with
  | nil =>
    intro img out _ hmem _ _ _
    exact absurd hmem (List.not_mem_nil _)
  | cons p rest ih =>
    obtain ⟨pi, pj⟩ := p
    intro img out h hmem hcov huniq htile
    simp only [stitch_fold] at h
    by_cases hp : ((pi, pj) : Nat × Nat) = (i, j)
    · injection hp with hp1 hp2
      subst hp1
      subst hp2
      rw [htile] at h
      by_cases hmem' : ((pi, pj) : Nat × Nat) ∈ rest
      · exact ih (blockWrite img ts pi pj t) out h hmem' hcov
          (fun q hq hqc => huniq q (List.mem_cons_of_mem _ hq) hqc) htile
      · have hnone : ∀ q ∈ rest, ¬ covers ts q.1 q.2 r c := by
          intro q hq hqc
          have hqij := huniq q (List.mem_cons_of_mem _ hq) hqc
          exact hmem' (hqij ▸ hq)
        have huntouched := stitch_fold_untouched tiles ts cols r c rest
          (blockWrite img ts pi pj t) out h hnone
        rw [huntouched]
        simp only [blockWrite]
        rw [if_pos hcov]
    · have hmem' : ((i, j) : Nat × Nat) ∈ rest := by
        rcases List.mem_cons.mp hmem with heq | hmr
        · exact absurd heq.symm hp
        · exact hmr
      have hpnc : ¬ covers ts pi pj r c := fun hcv =>
        hp (huniq (pi, pj) (List.mem_cons_self _ _) hcv)
      cases htile' : tiles[pi * cols + pj]? with
      | none =>
        rw [htile'] at h
        exact Option.noConfusion h
      | some o =>
        cases o with
        | none =>
          rw [htile'] at h
          exact Option.noConfusion h
        | some t' =>
          rw [htile'] at h
          exact ih (blockWrite img ts pi pj t') out h hmem' hcov
            (fun q hq hqc => huniq q (List.mem_cons_of_mem _ hq) hqc) htile

/-- C1 counterexample: with an empty tile list and rows = cols = tileSize = 1
the code raises an IndexError (there is no output image at all), so the
claim does not hold for every list of tiles. -/
theorem stitch_tiles_empty_cex :
    ¬ ∃ img : NdImage,
        stitch_tiles (([] : List Tile).map some) 1 1 1 = some img ∧
        img.h = 1 * 1 ∧ img.w = 1 * 1 := by
  rintro ⟨img, h, -, -⟩
  exact Option.noConfusion h

/-- C1 (amended): for every list of at least rows * cols tiles and every
positive rows, cols and tileSize, stitch_tiles succeeds, the output is the
padded image of exact size (rows * tileSize) by (cols * tileSize), and for
every linear index k < rows * cols the output pixel block at block row
k / cols and block column k % cols equals tile k. -/
theorem stitch_tiles_grid_placement (tiles : List Tile)
    (tile_size tile_row_n tile_col_n : Nat)
    (hts : 0 < tile_size) (hrow : 0 < tile_row_n) (hcol : 0 < tile_col_n)
    (hlen : tile_row_n * tile_col_n ≤ tiles.length) :
    ∃ img : NdImage,
      stitch_tiles (tiles.map some) tile_size tile_row_n tile_col_n = some img ∧
      img.h = tile_row_n * tile_size ∧ img.w = tile_col_n * tile_size ∧
      ∀ k (hk : k < tile_row_n * tile_col_n) r c, r < tile_size → c < tile_size →
        img.px (k / tile_col_n * tile_size + r) (k % tile_col_n * tile_size + c) =
          tiles.get ⟨k, Nat.lt_of_lt_of_le hk hlen⟩ r c := by
  have hpos : 0 < tile_row_n * tile_col_n := Nat.mul_pos hrow hcol
  cases tiles with
  | nil =>
    simp only [List.length_nil] at hlen
    omega
  | cons t0 rest =>
    have hall : ∀ p ∈ gridPairs tile_row_n tile_col_n,
        ∃ t, ((t0 :: rest).map some)[p.1 * tile_col_n + p.2]? = some (some t) := by
      intro p hp
      obtain ⟨hp1, hp2⟩ := gridPairs_mem tile_row_n tile_col_n p hp
      have hidx : p.1 * tile_col_n + p.2 < (t0 :: rest).length :=
        lt_of_lt_of_le (grid_index_lt tile_row_n tile_col_n p.1 p.2 hp1 hp2) hlen
      refine ⟨(t0 :: rest).get ⟨p.1 * tile_col_n + p.2, hidx⟩, ?_⟩
      rw [List.getElem?_map, List.getElem?_eq_getElem hidx]
      rfl
    obtain ⟨out, hout⟩ := stitch_fold_total ((t0 :: rest).map some) tile_size tile_col_n
      (gridPairs tile_row_n tile_col_n)
      { h := tile_size * tile_row_n, w := tile_size * tile_col_n, px := fun _ _ => 0 } hall
    obtain ⟨hh, hw⟩ := stitch_fold_dims ((t0 :: rest).map some) tile_size tile_col_n
      (gridPairs tile_row_n tile_col_n) _ out hout
    refine ⟨out, hout, ?_, ?_, ?_⟩
    · rw [hh]
      exact Nat.mul_comm tile_size tile_row_n
    · rw [hw]
      exact Nat.mul_comm tile_size tile_col_n
    · intro k hk r c hr hc
      have hi : k / tile_col_n < tile_row_n :=
        (Nat.div_lt_iff_lt_mul hcol).mpr hk
      have hj : k % tile_col_n < tile_col_n := Nat.mod_lt _ hcol
      have hidx : k / tile_col_n * tile_col_n + k % tile_col_n = k := by
        rw [Nat.mul_comm]
        exact Nat.div_add_mod k tile_col_n
      have hklen : k < (t0 :: rest).length := Nat.lt_of_lt_of_le hk hlen
      have htile : ((t0 :: rest).map some)[k / tile_col_n * tile_col_n + k % tile_col_n]?
          = some (some ((t0 :: rest).get ⟨k, hklen⟩)) := by
        rw [hidx, List.getElem?_map, List.getElem?_eq_getElem hklen]
        rfl
      have huniq : ∀ p ∈ gridPairs tile_row_n tile_col_n,
          covers tile_size p.1 p.2 (k / tile_col_n * tile_size + r)
            (k % tile_col_n * tile_size + c) →
          p = (k / tile_col_n, k % tile_col_n) := by
        intro p hp hpc
        obtain ⟨e1, e2⟩ := covers_unique tile_size (k / tile_col_n) (k % tile_col_n)
          p.1 p.2 r c hr hc hpc
        exact Prod.ext e1 e2
      have hplace := stitch_fold_place ((t0 :: rest).map some) tile_size tile_col_n
        (k / tile_col_n * tile_size + r) (k % tile_col_n * tile_size + c)
        (k / tile_col_n) (k % tile_col_n) ((t0 :: rest).get ⟨k, hklen⟩)
        (gridPairs tile_row_n tile_col_n) _ out hout
        (mem_gridPairs tile_row_n tile_col_n _ _ hi hj)
        (covers_self tile_size (k / tile_col_n) (k % tile_col_n) r c hr hc)
        huniq htile
      rw [hplace, Nat.add_sub_cancel_left, Nat.add_sub_cancel_left]

/-- Witness for stitch_tiles_grid_placement at two concrete 2 by 2 tiles on a
1 by 2 grid. -/
theorem stitch_tiles_grid_placement_w :
    ∃ img : NdImage,
      stitch_tiles (([fun r c => r + c, fun _ _ => 7] : List Tile).map some) 2 1 2
        = some img ∧
      img.h = 1 * 2 ∧ img.w = 2 * 2 ∧
      ∀ k (hk : k < 1 * 2) r c, r < 2 → c < 2 →
        img.px (k / 2 * 2 + r) (k % 2 * 2 + c) =
          ([fun r c => r + c, fun _ _ => 7] : List Tile).get
            ⟨k, Nat.lt_of_lt_of_le hk (by decide)⟩ r c :=
  stitch_tiles_grid_placement [fun r c => r + c, fun _ _ => 7] 2 1 2
    (by decide) (by decide) (by decide) (by decide)
